import Mathlib

/-!
Verification development for the swiss-ai/post-training repository.

The development shallowly embeds the partitioned, checkpointed
batch-processing core of the repository:

* `compute_subpartition_start_end_indices` and the surrounding driver of
  `src/swiss_alignment/data_alignment/generate_ref_completions_with_vllm_swissaiformat.py`
  (partition index calculation, checkpoint scanning, chunked processing loop);
* the checkpoint-discovery logic of `src/swiss_alignment/train_preference.py`
  (lines 158-176 and 205);
* the tokenizer validation logic of
  `src/swiss_alignment/data_sft/tokenization.py` (`get_tokenizer`, lines
  408-444) and of `train_preference.py` (lines 88-96).

Python integers are modelled as `Int` (or `Nat` where the quantity is a
count or an index known to be non-negative).  `math.ceil(a / b)` on integer
arguments is modelled by exact ceiling division `ceilDiv` (the float detour
taken by Python's true division is treated as exact).  Directory names are
modelled as `List Char`; Python's `str.split("-")`, `str.startswith` and
`int(...)` are given as executable functions on character lists.  A raised,
uncaught Python exception is modelled by `Option`/`Except` `none`/`error`
results or by dedicated outcome constructors.
-/

/-- Exact ceiling division on integers: `ceilDiv a b = ⌈a / b⌉` for `b ≠ 0`.
Models Python's `math.ceil(a / b)`, using the identity
`ceil(a / b) = -((-a) // b)` where `//` is Python floor division
(`Int.fdiv`).  For `b = 0` Python raises `ZeroDivisionError`; that case is
modelled at the call sites, never by this function's (junk) value at 0. -/
def ceilDiv (a b : Int) : Int := -((-a).fdiv b)

/-- Embedding of `compute_subpartition_start_end_indices` (file
`generate_ref_completions_with_vllm_swissaiformat.py`, lines 76-84):

    subpartition_size = math.ceil((partition_end_idx - partition_start_idx) / num_subpartitions)
    start_idx = partition_start_idx + subpartition_number * subpartition_size
    end_idx = partition_start_idx + (subpartition_number + 1) * subpartition_size
    end_idx = min(end_idx, partition_end_idx)
    return start_idx, end_idx
-/
def compute_subpartition_start_end_indices
    (partition_start_idx partition_end_idx subpartition_number num_subpartitions : Int) :
    Int × Int :=
  let subpartition_size :=
    ceilDiv (partition_end_idx - partition_start_idx) num_subpartitions
  let start_idx := partition_start_idx + subpartition_number * subpartition_size
  let end_idx := partition_start_idx + (subpartition_number + 1) * subpartition_size
  (start_idx, min end_idx partition_end_idx)

/-- A worker's sub-range, as a set of integer indices `[start_idx, end_idx)`.
When `start_idx ≥ end_idx` the set is empty, matching the script's
emptiness check `subpartition_start_idx >= subpartition_end_idx`. -/
def subpartitionMem (partition_start_idx partition_end_idx subpartition_number
    num_subpartitions i : Int) : Prop :=
  (compute_subpartition_start_end_indices partition_start_idx partition_end_idx
      subpartition_number num_subpartitions).1 ≤ i ∧
  i < (compute_subpartition_start_end_indices partition_start_idx partition_end_idx
      subpartition_number num_subpartitions).2

instance (ps pe w n i : Int) : Decidable (subpartitionMem ps pe w n i) := by
  unfold subpartitionMem; infer_instance

/-! ### The chunked processing loop

Embedding of the `while local_start_idx < len(subpartition_data)` loop of
`generate_ref_completions_with_vllm_swissaiformat.py`, lines 150-172.  Each
iteration selects the slice
`[local_start_idx, min(local_start_idx + save_interval, L))` (its data is
handed to the transform `generate_completions_batch`), saves it as
`checkpoint-{local_end_idx}` and advances `local_start_idx` to
`local_end_idx`.  The recursion is driven by fuel `L - start`: when the
chunk size `c` is positive every iteration strictly increases `start`, so
the fuel bounds the number of iterations of the source loop exactly. -/

/-- One slice per loop iteration: `(local_start_idx, local_end_idx)`. -/
def chunkSlicesAux : Nat → Nat → Nat → Nat → List (Nat × Nat)
  | 0, _, _, _ => []
  | fuel + 1, start, c, L =>
    if start < L then
      (start, min (start + c) L) :: chunkSlicesAux fuel (min (start + c) L) c L
    else []

/-- The list of slices `[local_start_idx, local_end_idx)` processed by the
loop when it begins at `start` with chunk size `c` over a partition of
length `L`. -/
def chunkSlices (start c L : Nat) : List (Nat × Nat) :=
  chunkSlicesAux (L - start) start c L

/-- The checkpoint names created by the loop, in creation order: each chunk
is saved as `checkpoint-{local_end_idx}` where `local_end_idx` is the
slice's exclusive end offset. -/
def chunkEnds (start c L : Nat) : List Nat :=
  (chunkSlices start c L).map Prod.snd

/-- Abstract view of the resuming directory as the multiset of checkpoint
offsets it holds; the scan
`max((int(item.name.split("-")[-1]) ...), default=0)` on offset level.
(The string-level scanner, including its failure mode, is
`scanCheckpoints` below.) -/
def scanOffsets (offs : List Nat) : Nat := offs.foldl max 0

/-- Outcome of one run of the generation script's `main` (lines 90-174),
restricted to the checkpointed-processing core.  All constructors except
`zeroDivisionError` are successful returns of the Python function;
`emptySubpartitionExit` and `alreadyCompleteExit` return before the loop,
having invoked no transform and created no checkpoint. -/
inductive MainOutcome where
  | zeroDivisionError : MainOutcome
  | emptySubpartitionExit : MainOutcome
  | alreadyCompleteExit : MainOutcome
  | completed : List (Nat × Nat) → List Nat → MainOutcome
deriving DecidableEq, Repr

/-- The resume-and-process part of `main` (lines 125-174): scan the
resuming directory, exit if the subpartition is already fully processed
(`already_processed_samples == len(subpartition_data)`), otherwise run the
chunk loop from `local_start_idx = already_processed_samples`. -/
def runProcessor (offs : List Nat) (L c : Nat) : MainOutcome :=
  let already_processed_samples := scanOffsets offs
  if already_processed_samples = L then .alreadyCompleteExit
  else .completed (chunkSlices already_processed_samples c L)
      (chunkEnds already_processed_samples c L)

/-- The checkpointed-processing core of `main` (lines 108-174): compute the
subpartition (Python raises `ZeroDivisionError` inside
`compute_subpartition_start_end_indices` when `num_subpartitions = 0`),
exit successfully if it is empty, then scan and process.  `offs` is the
offset-level view of the resuming directory, `c` is `config.save_interval`. -/
def mainRun (ps pe w n : Int) (offs : List Nat) (c : Nat) : MainOutcome :=
  if n = 0 then .zeroDivisionError
  else
    let se := compute_subpartition_start_end_indices ps pe w n
    if se.2 ≤ se.1 then .emptySubpartitionExit
    else runProcessor offs (se.2 - se.1).toNat c

/-! ### The string-level checkpoint scanner -/

/-- Python's `s.split("-")` on a character list: splits at every dash,
keeping empty pieces; the result is always non-empty. -/
def splitOnDash (s : List Char) : List (List Char) :=
  match s with
  | [] => [[]]
  | ch :: rest =>
    match splitOnDash rest with
    | [] => [[]]
    | t :: ts => if ch = '-' then [] :: t :: ts else (ch :: t) :: ts

/-- Python's `int(s)` on a dash-free token: a non-empty all-digit string
parses to its decimal value, anything else raises `ValueError` (modelled as
`none`).  (Python additionally strips whitespace and accepts a sign and
underscores; tokens produced by `split("-")` carry no sign or dash, and the
other refinements are irrelevant to directory names.) -/
def parseDigits (s : List Char) : Option Nat :=
  if s ≠ [] ∧ s.all Char.isDigit then
    some (s.foldl (fun a ch => 10 * a + (ch.toNat - 48)) 0)
  else none

/-- An immediate entry of the resuming directory, as seen by
`resuming_dir.iterdir()`: its name and whether it is a directory.
`iterdir` yields immediate children only, so the model carries no nesting. -/
structure DirEntry where
  name : List Char
  isDir : Bool
deriving DecidableEq, Repr

/-- The characters of the prefix `"checkpoint-"`. -/
def checkpointMarker : List Char := "checkpoint-".toList

/-- Embedding of the generation script's checkpoint scan (lines 128-135):

    already_processed_samples = max(
        (int(item.name.split("-")[-1])
         for item in resuming_dir.iterdir()
         if item.is_dir() and item.name.startswith("checkpoint-")),
        default=0)

Returns `none` when `int(...)` raises `ValueError` on some kept entry. -/
def scanCheckpoints (entries : List DirEntry) : Option Nat :=
  let kept := entries.filter fun it =>
    it.isDir && List.isPrefixOf checkpointMarker it.name
  match kept.mapM (fun it => parseDigits ((splitOnDash it.name).getLastD [])) with
  | none => none
  | some vals => some (vals.foldl max 0)

/-- The parsed offsets of the entries the scan keeps and successfully
parses (used to state what the scan's maximum ranges over). -/
def checkpointVals (entries : List DirEntry) : List Nat :=
  (entries.filter fun it => it.isDir && List.isPrefixOf checkpointMarker it.name).filterMap
    fun it => parseDigits ((splitOnDash it.name).getLastD [])

/-! ### The training driver's checkpoint discovery -/

/-- An immediate entry of the training run's resuming directory together
with the existence of the two companion files the driver checks
(`scheduler.pt` and `trainer_state.json` inside the entry). -/
structure TrainDirEntry where
  name : List Char
  isDir : Bool
  hasSchedulerPt : Bool
  hasTrainerStateJson : Bool
deriving DecidableEq, Repr

/-- Whether the training driver accepts the entry as a valid checkpoint:
`item.is_dir() and item.name.startswith("checkpoint-")` and both companion
files exist (`train_preference.py`, lines 161-165). -/
def isValidTrainCheckpoint (it : TrainDirEntry) : Bool :=
  it.isDir && List.isPrefixOf checkpointMarker it.name &&
    it.hasSchedulerPt && it.hasTrainerStateJson

/-- Embedding of the loop of `train_preference.py`, lines 160-168:

    last_checkpoint_number = 0
    for item in resuming_dir.iterdir():
        if item.is_dir() and item.name.startswith("checkpoint-"):
            if (item / "scheduler.pt").is_file() and (item / "trainer_state.json").is_file():
                last_checkpoint_number = max(last_checkpoint_number, int(item.name.split("-")[-1]))

`none` models `int(...)` raising `ValueError` on a valid entry. -/
def lastCheckpointNumberAux : List TrainDirEntry → Nat → Option Nat
  | [], acc => some acc
  | it :: rest, acc =>
    if isValidTrainCheckpoint it then
      match parseDigits ((splitOnDash it.name).getLastD []) with
      | none => none
      | some v => lastCheckpointNumberAux rest (max acc v)
    else lastCheckpointNumberAux rest acc

/-- `last_checkpoint_number` as computed by the training driver. -/
def lastCheckpointNumber (entries : List TrainDirEntry) : Option Nat :=
  lastCheckpointNumberAux entries 0

/-- The parsed numbers of the valid checkpoints in the listing. -/
def validCheckpointVals (entries : List TrainDirEntry) : List Nat :=
  entries.filterMap fun it =>
    if isValidTrainCheckpoint it then
      parseDigits ((splitOnDash it.name).getLastD [])
    else none

/-- The argument the driver passes to the trainer at line 205:
`trainer.train(resume_from_checkpoint=last_checkpoint_number > 0)`. -/
def resumeFromCheckpoint (entries : List TrainDirEntry) : Option Bool :=
  (lastCheckpointNumber entries).map (fun k => decide (0 < k))

/-! ### Tokenizer validation -/

/-- The state of a loaded `AutoTokenizer` that the validation code reads:
its pad and eos tokens (identified by token id; `none` = Python `None`). -/
structure HFTokenizer where
  padTokenId : Option Int
  eosTokenId : Option Int
deriving DecidableEq, Repr

/-- Result of `AutoTokenizer.from_pretrained(tc.model_name_or_path)` inside
the `try` of `get_tokenizer`: either the load raises (any exception), or it
yields a tokenizer whose `chat_template` attribute may itself be `None`. -/
inductive PretrainedTemplateLoad where
  | loadRaises : PretrainedTemplateLoad
  | loaded : Option (List Char) → PretrainedTemplateLoad
deriving DecidableEq, Repr

/-- The keys of the `CHAT_TEMPLATES` mapping of
`data_sft/tokenization.py` (lines 14-393). -/
def chatTemplateNames : List (List Char) :=
  [ "simple_concat_with_space".toList,
    "simple_concat_with_new_line".toList,
    "simple_chat".toList,
    "assistant_message_only".toList,
    "zephyr".toList,
    "tulu".toList,
    "tulu_special_token".toList,
    "mistral".toList,
    "apertus_chatml_no_special_tokens".toList,
    "apertus_chatml_special_tokens".toList,
    "apertus_mistral_no_special_tokens".toList,
    "apertus_mistral_special_tokens".toList,
    "apertus_mistral_special_tokens_eos".toList,
    "apertus_xml_no_special_tokens".toList,
    "apertus_mistral_only_between_roles".toList,
    "apertus_mistral_everywhere".toList,
    "apertus_mistral_everywhere_except_eos".toList,
    "apertus_mistral_beginning_of_message".toList,
    "apertus_mistral_asymmetric_assitant".toList,
    "apertus_mistral_special_tokens_s62_only".toList,
    "apertus".toList ]

/-- The fields of `TokenizerConfig` (tokenization.py, lines 396-404) that
the validation code reads. -/
structure TokenizerConfig where
  chat_template_name : Option (List Char)
  model_pad_token_id : Option Int
  model_eos_token_id : Option Int
deriving DecidableEq, Repr

/-- The chat template `get_tokenizer` ends up assigning. -/
inductive SelectedTemplate where
  | builtin : List Char → SelectedTemplate
  | fromModel : Option (List Char) → SelectedTemplate
deriving DecidableEq, Repr

/-- The pad token id after the `tc.model_pad_token_id` override
(tokenization.py, lines 416-418). -/
def resolvedPad (tok : HFTokenizer) (tc : TokenizerConfig) : Option Int :=
  match tc.model_pad_token_id with
  | some i => some i
  | none => tok.padTokenId

/-- The eos token id after the `tc.model_eos_token_id` override
(tokenization.py, lines 419-421). -/
def resolvedEos (tok : HFTokenizer) (tc : TokenizerConfig) : Option Int :=
  match tc.model_eos_token_id with
  | some i => some i
  | none => tok.eosTokenId

/-- Embedding of `get_tokenizer` (tokenization.py, lines 408-444): apply
the special-token overrides, perform the pad-token checks, then select the
chat template — from `CHAT_TEMPLATES` when `tc.chat_template_name` is a
key, otherwise from the model's own tokenizer, raising `ValueError` only
when that reload raises.  (The trailing `add_bos_to_chat_template`
augmentation, lines 446-456, follows the selection and is outside every
claim; it is not modelled.) -/
def get_tokenizer (tok : HFTokenizer) (load : PretrainedTemplateLoad)
    (tc : TokenizerConfig) : Except (List Char) (HFTokenizer × SelectedTemplate) :=
  let pad := resolvedPad tok tc
  let eos := resolvedEos tok tc
  if pad = none then .error "Tokenizer must have a pad token.".toList
  else if pad = eos then
    .error "Tokenizer pad token is the same as the eos token.".toList
  else
    match tc.chat_template_name with
    | some nm =>
      if nm ∈ chatTemplateNames then .ok (⟨pad, eos⟩, .builtin nm)
      else
        match load with
        | .loaded t => .ok (⟨pad, eos⟩, .fromModel t)
        | .loadRaises => .error "Could not find chat template.".toList
    | none =>
      match load with
      | .loaded t => .ok (⟨pad, eos⟩, .fromModel t)
      | .loadRaises => .error "Could not find chat template.".toList

/-- Embedding of the tokenizer checks of `train_preference.py`, lines
88-96: a missing pad token is repaired from
`config.tokenizer_args.pad_token_id` (with a warning, not an error); then
`pad == eos` raises `ValueError`. -/
def trainTokenizerSetup (tok : HFTokenizer) (configPadTokenId : Int) :
    Except (List Char) HFTokenizer :=
  let pad := if tok.padTokenId = none then some configPadTokenId else tok.padTokenId
  if pad = tok.eosTokenId then
    .error "Tokenizer pad token is the same as the eos token.".toList
  else .ok ⟨pad, tok.eosTokenId⟩


/-! ### Arithmetic facts about `ceilDiv` -/

theorem ceilDiv_bounds (a n : Int) (hn : 0 < n) :
    a ≤ n * ceilDiv a n ∧ n * ceilDiv a n < a + n := by
  have hfd : (-a).fdiv n = (-a) / n := Int.fdiv_eq_ediv _ hn.le
  have hdm : n * ((-a) / n) + (-a) % n = -a := Int.ediv_add_emod (-a) n
  have hr0 : 0 ≤ (-a) % n := Int.emod_nonneg _ (by omega)
  have hrn : (-a) % n < n := Int.emod_lt_of_pos _ hn
  unfold ceilDiv
  rw [hfd]
  constructor <;> nlinarith [hdm]

theorem exists_block (size d : Int) (hsize : 0 < size) (hd : 0 ≤ d) :
    ∃ w, 0 ≤ w ∧ w * size ≤ d ∧ d < (w + 1) * size := by
  refine ⟨d / size, Int.ediv_nonneg hd hsize.le, ?_, ?_⟩
  · have hdm : size * (d / size) + d % size = d := Int.ediv_add_emod d size
    have hr0 : 0 ≤ d % size := Int.emod_nonneg _ (by omega)
    nlinarith [hdm]
  · have hdm : size * (d / size) + d % size = d := Int.ediv_add_emod d size
    have hrn : d % size < size := Int.emod_lt_of_pos _ hsize
    nlinarith [hdm]

theorem block_unique (size d w1 w2 : Int)
    (h1 : w1 * size ≤ d) (h1' : d < (w1 + 1) * size)
    (h2 : w2 * size ≤ d) (h2' : d < (w2 + 1) * size) : w1 = w2 := by
  have hsize : 0 < size := by nlinarith
  by_contra hne
  rcases lt_or_gt_of_ne hne with h | h
  · have hle : w1 + 1 ≤ w2 := by omega
    have : (w1 + 1) * size ≤ w2 * size :=
      mul_le_mul_of_nonneg_right hle hsize.le
    linarith
  · have hle : w2 + 1 ≤ w1 := by omega
    have : (w2 + 1) * size ≤ w1 * size :=
      mul_le_mul_of_nonneg_right hle hsize.le
    linarith

theorem subpartitionMem_iff (ps pe w n i : Int) :
    subpartitionMem ps pe w n i ↔
      ps + w * ceilDiv (pe - ps) n ≤ i ∧
      i < min (ps + (w + 1) * ceilDiv (pe - ps) n) pe :=
  Iff.rfl

/-- C1: for all non-negative `range_start ≤ range_end` and
`worker_count ≥ 1`, the sub-ranges returned by
`compute_subpartition_start_end_indices` for worker ids `0..worker_count-1`
(each read as the possibly-empty interval `[start_idx, end_idx)`, matching
the caller's emptiness check) are pairwise disjoint and their union is
exactly `[range_start, range_end)`; the returned pair is built from
`subpartition_size = ceil((range_end - range_start) / worker_count)` as
`(range_start + w * size, min (range_start + (w+1) * size) range_end)`. -/
theorem subpartition_cover_and_disjoint (ps pe n : Int)
    (_hps : 0 ≤ ps) (hle : ps ≤ pe) (hn : 1 ≤ n) :
    (∀ i : Int, (ps ≤ i ∧ i < pe) ↔
        ∃ w : Int, 0 ≤ w ∧ w < n ∧ subpartitionMem ps pe w n i) ∧
    (∀ w1 w2 i : Int, subpartitionMem ps pe w1 n i →
        subpartitionMem ps pe w2 n i → w1 = w2) ∧
    (∀ w : Int,
        (compute_subpartition_start_end_indices ps pe w n).1
          = ps + w * ceilDiv (pe - ps) n ∧
        (compute_subpartition_start_end_indices ps pe w n).2
          = min (ps + (w + 1) * ceilDiv (pe - ps) n) pe) := by
  have hnpos : (0 : Int) < n := hn
  obtain ⟨hlb, hub⟩ := ceilDiv_bounds (pe - ps) n hnpos
  set size := ceilDiv (pe - ps) n with hsz
  have hsize0 : 0 ≤ size := by
    by_contra hneg
    push_neg at hneg
    have : n * size < 0 := by nlinarith
    linarith
  refine ⟨?_, ?_, fun w => ⟨rfl, rfl⟩⟩
  · intro i
    constructor
    · rintro ⟨hi1, hi2⟩
      have hd0 : 0 ≤ i - ps := by linarith
      have hdL : i - ps < pe - ps := by linarith
      have hsizepos : 0 < size := by
        rcases lt_or_eq_of_le hsize0 with h | h
        · exact h
        · exfalso
          have : n * size = 0 := by rw [← h]; ring
          linarith
      obtain ⟨w, hw0, hwl, hwu⟩ := exists_block size (i - ps) hsizepos hd0
      refine ⟨w, hw0, ?_, ?_⟩
      · by_contra hge
        push_neg at hge
        have : n * size ≤ w * size := mul_le_mul_of_nonneg_right hge hsize0
        have : size * n = n * size := mul_comm _ _
        linarith
      · rw [subpartitionMem_iff]
        refine ⟨by linarith, lt_min (by linarith) hi2⟩
    · rintro ⟨w, hw0, hwn, hmem⟩
      rw [subpartitionMem_iff] at hmem
      obtain ⟨hm1, hm2⟩ := hmem
      have hws : 0 ≤ w * size := mul_nonneg hw0 hsize0
      exact ⟨by linarith, lt_of_lt_of_le hm2 (min_le_right _ _)⟩
  · intro w1 w2 i hmem1 hmem2
    rw [subpartitionMem_iff] at hmem1 hmem2
    obtain ⟨h11, h12⟩ := hmem1
    obtain ⟨h21, h22⟩ := hmem2
    have h12' : i < ps + (w1 + 1) * size := lt_of_lt_of_le h12 (min_le_left _ _)
    have h22' : i < ps + (w2 + 1) * size := lt_of_lt_of_le h22 (min_le_left _ _)
    exact block_unique size (i - ps) w1 w2 (by linarith) (by linarith)
      (by linarith) (by linarith)

theorem subpartition_cover_and_disjoint_witness :
    (0 : Int) ≤ 0 ∧ (0 : Int) ≤ 10 ∧ (1 : Int) ≤ 3 ∧
    ((∀ i : Int, ((0 : Int) ≤ i ∧ i < 10) ↔
        ∃ w : Int, 0 ≤ w ∧ w < 3 ∧ subpartitionMem 0 10 w 3 i) ∧
     (∀ w1 w2 i : Int, subpartitionMem 0 10 w1 3 i →
        subpartitionMem 0 10 w2 3 i → w1 = w2) ∧
     (∀ w : Int,
        (compute_subpartition_start_end_indices 0 10 w 3).1
          = 0 + w * ceilDiv (10 - 0) 3 ∧
        (compute_subpartition_start_end_indices 0 10 w 3).2
          = min (0 + (w + 1) * ceilDiv (10 - 0) 3) 10)) :=
  ⟨by decide, by decide, by decide,
    subpartition_cover_and_disjoint 0 10 3 (by decide) (by decide) (by decide)⟩

/-- C8: a computed subpartition with `start_idx ≥ end_idx` is a valid
terminal state, not an error: the driver detects it and returns
successfully before scanning, before any transform call and before any
checkpoint is written (`emptySubpartitionExit` carries no slices and no
checkpoints by construction); in particular
`compute_subpartition_start_end_indices (10, 10, 0, 1)` returns a pair
with `start_idx ≥ end_idx`. -/
theorem empty_subpartition_is_clean_exit :
    ((compute_subpartition_start_end_indices 10 10 0 1).2 ≤
        (compute_subpartition_start_end_indices 10 10 0 1).1) ∧
    (∀ (ps pe w n : Int) (offs : List Nat) (c : Nat), n ≠ 0 →
        (compute_subpartition_start_end_indices ps pe w n).2 ≤
          (compute_subpartition_start_end_indices ps pe w n).1 →
        mainRun ps pe w n offs c = .emptySubpartitionExit) := by
  refine ⟨by decide, ?_⟩
  intro ps pe w n offs c hn hempty
  unfold mainRun
  simp [hn, hempty]

theorem empty_subpartition_is_clean_exit_witness :
    (10 : Int) ≠ 0 ∧
    mainRun 10 10 0 10 [] 4 = .emptySubpartitionExit :=
  ⟨by decide,
    empty_subpartition_is_clean_exit.2 10 10 0 10 [] 4 (by decide) (by decide)⟩

/-- C10: under the claim's preconditions the returned `end_idx` never
exceeds `range_end`, but the pair need not be a well-formed interval: for
the range `[0, 1)` split over 3 workers, worker id 2 receives
`start_idx = 2 > 1 = end_idx`, so callers must use `start_idx ≥ end_idx`
as the emptiness condition. -/
theorem subpartition_end_le_range_end_but_not_wellformed :
    (∀ ps pe w n : Int, 0 ≤ ps → ps ≤ pe → 1 ≤ n → 0 ≤ w → w < n →
        (compute_subpartition_start_end_indices ps pe w n).2 ≤ pe) ∧
    ((compute_subpartition_start_end_indices 0 1 2 3).2 <
        (compute_subpartition_start_end_indices 0 1 2 3).1) := by
  refine ⟨?_, by decide⟩
  intro ps pe w n _ _ _ _ _
  exact min_le_right _ _

theorem subpartition_end_le_range_end_but_not_wellformed_witness :
    (0 : Int) ≤ 0 ∧ (0 : Int) ≤ 7 ∧ (1 : Int) ≤ 2 ∧ (0 : Int) ≤ 1 ∧ (1 : Int) < 2 ∧
    (compute_subpartition_start_end_indices 0 7 1 2).2 ≤ 7 :=
  ⟨by decide, by decide, by decide, by decide, by decide,
    subpartition_end_le_range_end_but_not_wellformed.1 0 7 1 2
      (by decide) (by decide) (by decide) (by decide) (by decide)⟩

/-! ### Closed form of the chunk loop -/

/-- Number of chunks the loop performs from `start` over length `L` with
chunk size `c`: the ceiling of `(L - start) / c`. -/
def numChunks (start c L : Nat) : Nat := (L - start + c - 1) / c

theorem chunkSlicesAux_closed (c L : Nat) (hc : 0 < c) :
    ∀ (fuel start : Nat), L - start ≤ fuel →
      chunkSlicesAux fuel start c L =
        (List.range (numChunks start c L)).map
          (fun k => (start + k * c, min (start + (k + 1) * c) L)) := by
  intro fuel
  induction fuel with
  | zero =>
    intro start hfuel
    have hm : numChunks start c L = 0 := by
      unfold numChunks
      have h0 : L - start = 0 := by omega
      rw [h0]
      exact Nat.div_eq_of_lt (by omega)
    rw [hm]
    simp [chunkSlicesAux]
  | succ fuel ih =>
    intro start hfuel
    by_cases hsl : start < L
    · rw [chunkSlicesAux]
      simp only [if_pos hsl]
      by_cases hcl : start + c ≤ L
      · have hmin : min (start + c) L = start + c := by omega
        rw [hmin, ih (start + c) (by omega)]
        have hnum : numChunks start c L = numChunks (start + c) c L + 1 := by
          unfold numChunks
          have h1 : L - start + c - 1 = (L - (start + c) + c - 1) + c := by omega
          rw [h1, Nat.add_div_right _ hc]
        rw [hnum, List.range_succ_eq_map, List.map_cons, List.map_map]
        congr 1
        · simp [Prod.ext_iff]
          omega
        · have hfg : (fun k => (start + c + k * c, min (start + c + (k + 1) * c) L))
              = ((fun k => (start + k * c, min (start + (k + 1) * c) L)) ∘ Nat.succ) := by
            funext k
            simp only [Function.comp, Nat.succ_eq_add_one, Prod.ext_iff]
            constructor
            · ring
            · rw [show start + c + (k + 1) * c = start + (k + 1 + 1) * c by ring]
          rw [hfg]
      · have hmin : min (start + c) L = L := by omega
        have htail : chunkSlicesAux fuel L c L = [] := by
          cases fuel <;> simp [chunkSlicesAux]
        rw [hmin, htail]
        have hnum : numChunks start c L = 1 := by
          unfold numChunks
          have h1 : L - start + c - 1 = (L - start - 1) + c := by omega
          rw [h1, Nat.add_div_right _ hc]
          have h2 : L - start - 1 < c := by omega
          rw [Nat.div_eq_of_lt h2]
        rw [hnum]
        rw [show List.range 1 = [0] from rfl]
        simp [Prod.ext_iff]
        omega
    · have hm : numChunks start c L = 0 := by
        unfold numChunks
        have h0 : L - start = 0 := by omega
        rw [h0]
        exact Nat.div_eq_of_lt (by omega)
      rw [hm]
      cases fuel <;> simp [chunkSlicesAux, hsl]

theorem chunkSlices_closed (start c L : Nat) (hc : 0 < c) :
    chunkSlices start c L =
      (List.range (numChunks start c L)).map
        (fun k => (start + k * c, min (start + (k + 1) * c) L)) :=
  chunkSlicesAux_closed c L hc (L - start) start (le_refl _)

theorem chunkEnds_closed (start c L : Nat) (hc : 0 < c) :
    chunkEnds start c L =
      (List.range (numChunks start c L)).map
        (fun k => min (start + (k + 1) * c) L) := by
  unfold chunkEnds
  rw [chunkSlices_closed start c L hc, List.map_map]
  rfl

theorem chunkEnds_getElem (start c L : Nat) (hc : 0 < c) (k : Nat)
    (hk : k < numChunks start c L) :
    (chunkEnds start c L)[k]? = some (min (start + (k + 1) * c) L) := by
  rw [chunkEnds_closed start c L hc, List.getElem?_map, List.getElem?_range hk]
  rfl

theorem chunkEnds_length (start c L : Nat) (hc : 0 < c) :
    (chunkEnds start c L).length = numChunks start c L := by
  rw [chunkEnds_closed start c L hc, List.length_map, List.length_range]

/-- C3: starting from offset 0 over a partition of length `L` with chunk
size `c > 0`, the loop creates exactly `⌈L / c⌉` checkpoints, the `k`-th
(0-based) named by the chunk's exclusive end offset `min ((k+1)·c) L`, in
strictly increasing order; in particular for `L = 100`, `c = 30` the
checkpoints are `30, 60, 90, 100` in that order and the final chunk is
`[90, 100)`, of length 10. -/
theorem checkpoints_one_per_chunk (L c : Nat) (hc : 0 < c) :
    (chunkEnds 0 c L).length = (L + c - 1) / c ∧
    (∀ k : Nat, k < (chunkEnds 0 c L).length →
        (chunkEnds 0 c L)[k]? = some (min ((k + 1) * c) L)) ∧
    (∀ k a b : Nat, (chunkEnds 0 c L)[k]? = some a →
        (chunkEnds 0 c L)[k + 1]? = some b → a < b) ∧
    chunkEnds 0 30 100 = [30, 60, 90, 100] ∧
    (chunkSlices 0 30 100).getLastD (0, 0) = (90, 100) := by
  have hlen : (chunkEnds 0 c L).length = numChunks 0 c L :=
    chunkEnds_length 0 c L hc
  have hget : ∀ k : Nat, k < numChunks 0 c L →
      (chunkEnds 0 c L)[k]? = some (min ((k + 1) * c) L) := by
    intro k hk
    have := chunkEnds_getElem 0 c L hc k hk
    rwa [Nat.zero_add] at this
  refine ⟨?_, ?_, ?_, by decide, by decide⟩
  · rw [hlen]; unfold numChunks; rw [Nat.sub_zero]
  · intro k hk
    exact hget k (hlen ▸ hk)
  · intro k a b ha hb
    have hkb : k + 1 < (chunkEnds 0 c L).length := (List.getElem?_eq_some.mp hb).1
    have hkm : k + 1 < numChunks 0 c L := hlen ▸ hkb
    have ha' := hget k (by omega)
    have hb' := hget (k + 1) hkm
    rw [ha] at ha'
    rw [hb] at hb'
    have haa : a = min ((k + 1) * c) L := Option.some_injective _ ha'
    have hbb : b = min ((k + 1 + 1) * c) L := Option.some_injective _ hb'
    -- k + 1 < numChunks implies (k + 1) * c < L
    have hdm : c * ((L - 0 + c - 1) / c) + (L - 0 + c - 1) % c = L - 0 + c - 1 :=
      Nat.div_add_mod _ c
    have hmod : (L - 0 + c - 1) % c < c := Nat.mod_lt _ hc
    have hmul : c * (k + 2) ≤ c * numChunks 0 c L :=
      Nat.mul_le_mul_left c (by omega)
    unfold numChunks at hmul
    simp only [Nat.sub_zero] at hdm hmod hmul
    have hexp : c * (k + 2) = c * k + 2 * c := by ring
    have hexp1 : (k + 1) * c = c * k + c := by ring
    have hexp2 : (k + 1 + 1) * c = c * k + 2 * c := by ring
    have hlt : (k + 1) * c < L := by
      rw [hexp1]
      rw [hexp] at hmul
      generalize hq : c * ((L + c - 1) / c) = Q at hdm hmul
      generalize hr : (L + c - 1) % c = R at hdm hmod
      generalize hk2 : c * k = K at hmul ⊢
      omega
    have hlt2 : (k + 1) * c < (k + 1 + 1) * c := by
      rw [hexp1, hexp2]
      omega
    omega

theorem checkpoints_one_per_chunk_witness :
    0 < 30 ∧
    ((chunkEnds 0 30 100).length = (100 + 30 - 1) / 30 ∧
     (∀ k : Nat, k < (chunkEnds 0 30 100).length →
        (chunkEnds 0 30 100)[k]? = some (min ((k + 1) * 30) 100)) ∧
     (∀ k a b : Nat, (chunkEnds 0 30 100)[k]? = some a →
        (chunkEnds 0 30 100)[k + 1]? = some b → a < b) ∧
     chunkEnds 0 30 100 = [30, 60, 90, 100] ∧
     (chunkSlices 0 30 100).getLastD (0, 0) = (90, 100)) :=
  ⟨by decide, checkpoints_one_per_chunk 100 30 (by decide)⟩

/-! ### Facts about the offset-level scan -/

theorem foldl_max_shift (l : List Nat) : ∀ a : Nat, l.foldl max a = max a (l.foldl max 0) := by
  induction l with
  | nil => intro a; simp
  | cons b t ih =>
    intro a
    simp only [List.foldl_cons]
    rw [ih (max a b), ih (max 0 b)]
    omega

theorem scanOffsets_cons (a : Nat) (l : List Nat) :
    scanOffsets (a :: l) = max a (scanOffsets l) := by
  unfold scanOffsets
  simp only [List.foldl_cons]
  rw [foldl_max_shift]
  omega

theorem scanOffsets_append (xs ys : List Nat) :
    scanOffsets (xs ++ ys) = max (scanOffsets xs) (scanOffsets ys) := by
  unfold scanOffsets
  rw [List.foldl_append, foldl_max_shift]

theorem le_scanOffsets_of_mem {x : Nat} {l : List Nat} (hx : x ∈ l) :
    x ≤ scanOffsets l := by
  induction l with
  | nil => cases hx
  | cons b t ih =>
    rw [scanOffsets_cons]
    rcases List.mem_cons.mp hx with h | h
    · omega
    · have := ih h; omega

theorem scanOffsets_le {B : Nat} {l : List Nat} (hB : ∀ x ∈ l, x ≤ B) :
    scanOffsets l ≤ B := by
  induction l with
  | nil => simp [scanOffsets]
  | cons b t ih =>
    rw [scanOffsets_cons]
    have h1 : b ≤ B := hB b (List.mem_cons_self _ _)
    have h2 : scanOffsets t ≤ B := ih (fun x hx => hB x (List.mem_cons_of_mem _ hx))
    omega

theorem chunkEnds_mem_le (start c L : Nat) (hc : 0 < c) :
    ∀ e ∈ chunkEnds start c L, e ≤ L := by
  intro e he
  rw [chunkEnds_closed start c L hc] at he
  obtain ⟨k, _, rfl⟩ := List.mem_map.mp he
  exact min_le_right _ _

theorem numChunks_pos (start c L : Nat) (hc : 0 < c) (hsl : start < L) :
    1 ≤ numChunks start c L := by
  unfold numChunks
  rw [Nat.le_div_iff_mul_le hc]
  omega

theorem mem_chunkEnds_last (start c L : Nat) (hc : 0 < c) (hsl : start < L) :
    L ∈ chunkEnds start c L := by
  rw [chunkEnds_closed start c L hc]
  have hm1 : 1 ≤ numChunks start c L := numChunks_pos start c L hc hsl
  refine List.mem_map.mpr ⟨numChunks start c L - 1, List.mem_range.mpr (by omega), ?_⟩
  have hk1 : numChunks start c L - 1 + 1 = numChunks start c L := by omega
  rw [hk1]
  have hdm : c * ((L - start + c - 1) / c) + (L - start + c - 1) % c
      = L - start + c - 1 := Nat.div_add_mod _ c
  have hmod : (L - start + c - 1) % c < c := Nat.mod_lt _ hc
  have hge : L ≤ start + numChunks start c L * c := by
    unfold numChunks
    rw [Nat.mul_comm]
    generalize hq : c * ((L - start + c - 1) / c) = Q at hdm
    generalize hr : (L - start + c - 1) % c = R at hdm hmod
    omega
  omega

theorem scanOffsets_chunkEnds (start c L : Nat) (hc : 0 < c) (hsl : start < L) :
    scanOffsets (chunkEnds start c L) = L :=
  le_antisymm (scanOffsets_le (chunkEnds_mem_le start c L hc))
    (le_scanOffsets_of_mem (mem_chunkEnds_last start c L hc hsl))

/-- C6: re-running the processor after the partition is fully processed is
a no-op: when the scan result equals the partition length the run returns
before the loop, invoking no transform and creating no checkpoint
(`alreadyCompleteExit` carries no slices and no checkpoints by
construction); consequently, after a run that completed the partition, a
second run against the same resuming directory (the old entries plus the
checkpoints the completed run created) is exactly such a no-op. -/
theorem rerun_after_completion_is_noop (offs : List Nat) (L c : Nat) :
    (scanOffsets offs = L → runProcessor offs L c = .alreadyCompleteExit) ∧
    (scanOffsets offs < L → 0 < c →
        runProcessor (offs ++ chunkEnds (scanOffsets offs) c L) L c
          = .alreadyCompleteExit) := by
  constructor
  · intro h
    unfold runProcessor
    simp [h]
  · intro hA hc
    have h1 : scanOffsets (offs ++ chunkEnds (scanOffsets offs) c L)
        = max (scanOffsets offs) (scanOffsets (chunkEnds (scanOffsets offs) c L)) :=
      scanOffsets_append _ _
    have h2 : scanOffsets (chunkEnds (scanOffsets offs) c L) = L :=
      scanOffsets_chunkEnds _ c L hc hA
    have h3 : scanOffsets (offs ++ chunkEnds (scanOffsets offs) c L) = L := by
      rw [h1, h2]
      omega
    unfold runProcessor
    simp [h3]

theorem rerun_after_completion_is_noop_witness :
    runProcessor [5] 5 2 = .alreadyCompleteExit ∧
    runProcessor ([1] ++ chunkEnds (scanOffsets [1]) 2 3) 3 2
      = .alreadyCompleteExit :=
  ⟨(rerun_after_completion_is_noop [5] 5 2).1 (by decide),
   (rerun_after_completion_is_noop [1] 3 2).2 (by decide) (by decide)⟩

/-- C2: with the resuming directory's checkpoints having maximum offset 64,
a chunk size of 64 and a partition of length at least 128 (so the previous
run crashed somewhere at or after the chunk `[64, 128)`, leaving no
checkpoint for it), a fresh run enters the loop at
`local_start_idx = 64`: its first transformed slice is exactly `[64, 128)`,
that slice is processed exactly once, every processed slice starts at or
after 64 (so no item of `[0, 64)` is reprocessed), and every checkpoint the
run writes has offset at least 128 (so no existing checkpoint covering
`[0, 64)` is rewritten). -/
theorem crash_recovery_resumes_at_64 (offs : List Nat) (L : Nat)
    (hscan : scanOffsets offs = 64) (hL : 128 ≤ L) :
    ∃ slices ck,
      runProcessor offs L 64 = .completed slices ck ∧
      slices.head? = some (64, 128) ∧
      (∀ j : Nat, slices[j]? = some (64, 128) → j = 0) ∧
      (∀ p ∈ slices, 64 ≤ p.1) ∧
      (∀ i : Nat, i < 64 → ∀ p ∈ slices, ¬(p.1 ≤ i ∧ i < p.2)) ∧
      (∀ e ∈ ck, 128 ≤ e) := by
  have hc : 0 < 64 := by decide
  have hne : (64 : Nat) ≠ L := by omega
  refine ⟨chunkSlices 64 64 L, chunkEnds 64 64 L, ?_, ?_, ?_, ?_, ?_, ?_⟩
  · unfold runProcessor
    simp [hscan, hne]
  · rw [chunkSlices_closed 64 64 L hc]
    have hm1 : 1 ≤ numChunks 64 64 L := numChunks_pos 64 64 L hc (by omega)
    obtain ⟨m, hm⟩ : ∃ m, numChunks 64 64 L = m + 1 := ⟨numChunks 64 64 L - 1, by omega⟩
    rw [hm, List.range_succ_eq_map, List.map_cons, List.head?_cons]
    have : min (64 + (0 + 1) * 64) L = 128 := by omega
    simp [this]
  · intro j hj
    rw [chunkSlices_closed 64 64 L hc] at hj
    have hjlt : j < numChunks 64 64 L := by
      have := (List.getElem?_eq_some.mp hj).1
      simpa using this
    rw [List.getElem?_map, List.getElem?_range hjlt] at hj
    simp [Prod.ext_iff] at hj
    omega
  · intro p hp
    rw [chunkSlices_closed 64 64 L hc] at hp
    obtain ⟨k, _, rfl⟩ := List.mem_map.mp hp
    simp only
    omega
  · intro i hi p hp
    rw [chunkSlices_closed 64 64 L hc] at hp
    obtain ⟨k, _, rfl⟩ := List.mem_map.mp hp
    simp only
    omega
  · intro e he
    rw [chunkEnds_closed 64 64 L hc] at he
    obtain ⟨k, _, rfl⟩ := List.mem_map.mp he
    omega

theorem crash_recovery_resumes_at_64_witness :
    scanOffsets [64, 32] = 64 ∧ 128 ≤ 128 ∧
    (∃ slices ck,
      runProcessor [64, 32] 128 64 = .completed slices ck ∧
      slices.head? = some (64, 128) ∧
      (∀ j : Nat, slices[j]? = some (64, 128) → j = 0) ∧
      (∀ p ∈ slices, 64 ≤ p.1) ∧
      (∀ i : Nat, i < 64 → ∀ p ∈ slices, ¬(p.1 ≤ i ∧ i < p.2)) ∧
      (∀ e ∈ ck, 128 ≤ e)) :=
  ⟨by decide, by decide,
    crash_recovery_resumes_at_64 [64, 32] 128 (by decide) (by decide)⟩

/-! ### The string-level scanner: failure and max characterization -/

theorem mapM_eq_filterMap_of_isSome {α β : Type} (f : α → Option β) :
    ∀ l : List α, (∀ x ∈ l, (f x).isSome = true) →
      l.mapM f = some (l.filterMap f) := by
  intro l
  induction l with
  | nil => intro _; rfl
  | cons a t ih =>
    intro h
    obtain ⟨b, hb⟩ := Option.isSome_iff_exists.mp (h a (List.mem_cons_self _ _))
    have ht := ih (fun x hx => h x (List.mem_cons_of_mem _ hx))
    rw [List.mapM_cons, hb, ht, List.filterMap_cons, hb]
    rfl

theorem scanOffsets_eq_zero_or_mem (l : List Nat) :
    scanOffsets l = 0 ∨ scanOffsets l ∈ l := by
  induction l with
  | nil => left; rfl
  | cons b t ih =>
    rw [scanOffsets_cons]
    rcases Nat.le_total b (scanOffsets t) with h | h
    · rcases ih with h0 | hm
      · left; omega
      · right
        have : max b (scanOffsets t) = scanOffsets t := by omega
        rw [this]
        exact List.mem_cons_of_mem _ hm
    · right
      have : max b (scanOffsets t) = b := by omega
      rw [this]
      exact List.mem_cons_self _ _

/-- C4 counterexample: a directory entry named `checkpoint-final` does not
match `checkpoint-<integer>`, so the claim says the scan ignores it and
returns 0; but the code passes `"final"` to `int(...)`, which raises
`ValueError` — the scan fails (`none`) instead of returning `some 0`. -/
theorem scanner_fails_on_nonnumeric_checkpoint_name :
    scanCheckpoints [⟨"checkpoint-final".toList, true⟩] = none ∧
    (none : Option Nat) ≠ some 0 := by
  constructor
  · decide
  · decide

/-- C4 (amended): entries that are not directories or whose names do not
start with `checkpoint-` are ignored; when every kept entry's final
dash-separated token is numeric, the scan returns the maximum parsed value
(0 when no entry is kept); a kept entry with a non-numeric final token
makes the whole scan raise instead of being ignored
(`scanner_fails_on_nonnumeric_checkpoint_name`).  The scan reads only the
immediate entries it is given, mirroring `iterdir`'s non-recursive
enumeration. -/
theorem scanner_returns_max_checkpoint (entries : List DirEntry)
    (hparse : ∀ it ∈ entries, it.isDir = true →
        List.isPrefixOf checkpointMarker it.name = true →
        (parseDigits ((splitOnDash it.name).getLastD [])).isSome = true) :
    ∃ K, scanCheckpoints entries = some K ∧
      (∀ v ∈ checkpointVals entries, v ≤ K) ∧
      (K = 0 ∨ K ∈ checkpointVals entries) ∧
      (∀ e : DirEntry, (e.isDir && List.isPrefixOf checkpointMarker e.name) = false →
          scanCheckpoints (e :: entries) = scanCheckpoints entries) := by
  have hkept : ∀ it ∈ (entries.filter fun it =>
      it.isDir && List.isPrefixOf checkpointMarker it.name),
      (parseDigits ((splitOnDash it.name).getLastD [])).isSome = true := by
    intro it hit
    have hmem := List.mem_of_mem_filter hit
    have hcond := List.of_mem_filter hit
    simp only [Bool.and_eq_true] at hcond
    exact hparse it hmem hcond.1 hcond.2
  have hmm := mapM_eq_filterMap_of_isSome
    (fun it => parseDigits ((splitOnDash it.name).getLastD []))
    (entries.filter fun it => it.isDir && List.isPrefixOf checkpointMarker it.name)
    hkept
  refine ⟨scanOffsets (checkpointVals entries), ?_, ?_, ?_, ?_⟩
  · simp only [scanCheckpoints]
    rw [hmm]
    rfl
  · intro v hv
    exact le_scanOffsets_of_mem hv
  · exact scanOffsets_eq_zero_or_mem _
  · intro e he
    unfold scanCheckpoints
    rw [List.filter_cons_of_neg]
    simp [he]

theorem scanner_returns_max_checkpoint_witness :
    ∃ K, scanCheckpoints
        [⟨"checkpoint-500".toList, true⟩, ⟨"notes".toList, true⟩,
         ⟨"checkpoint-200".toList, false⟩, ⟨"checkpoint-700".toList, true⟩] = some K ∧
      (∀ v ∈ checkpointVals
        [⟨"checkpoint-500".toList, true⟩, ⟨"notes".toList, true⟩,
         ⟨"checkpoint-200".toList, false⟩, ⟨"checkpoint-700".toList, true⟩], v ≤ K) ∧
      (K = 0 ∨ K ∈ checkpointVals
        [⟨"checkpoint-500".toList, true⟩, ⟨"notes".toList, true⟩,
         ⟨"checkpoint-200".toList, false⟩, ⟨"checkpoint-700".toList, true⟩]) ∧
      (∀ e : DirEntry, (e.isDir && List.isPrefixOf checkpointMarker e.name) = false →
          scanCheckpoints (e ::
            [⟨"checkpoint-500".toList, true⟩, ⟨"notes".toList, true⟩,
             ⟨"checkpoint-200".toList, false⟩, ⟨"checkpoint-700".toList, true⟩])
            = scanCheckpoints
            [⟨"checkpoint-500".toList, true⟩, ⟨"notes".toList, true⟩,
             ⟨"checkpoint-200".toList, false⟩, ⟨"checkpoint-700".toList, true⟩]) :=
  scanner_returns_max_checkpoint _ (by decide)

/-! ### The training driver's scan: max over valid checkpoints -/

theorem lastCheckpointNumberAux_eq (entries : List TrainDirEntry)
    (hparse : ∀ it ∈ entries, isValidTrainCheckpoint it = true →
        (parseDigits ((splitOnDash it.name).getLastD [])).isSome = true) :
    ∀ acc : Nat, lastCheckpointNumberAux entries acc
      = some (max acc (scanOffsets (validCheckpointVals entries))) := by
  induction entries with
  | nil =>
    intro acc
    simp [lastCheckpointNumberAux, validCheckpointVals, scanOffsets]
  | cons it rest ih =>
    intro acc
    have hrest := ih (fun x hx hv => hparse x (List.mem_cons_of_mem _ hx) hv)
    by_cases hv : isValidTrainCheckpoint it = true
    · obtain ⟨v, hvp⟩ := Option.isSome_iff_exists.mp
        (hparse it (List.mem_cons_self _ _) hv)
      have hvals : validCheckpointVals (it :: rest)
          = v :: validCheckpointVals rest := by
        unfold validCheckpointVals
        rw [List.filterMap_cons, if_pos hv, hvp]
      rw [lastCheckpointNumberAux]
      simp only [hv, if_true, hvp]
      rw [hrest, hvals, scanOffsets_cons]
      congr 1
      omega
    · have hvals : validCheckpointVals (it :: rest) = validCheckpointVals rest := by
        unfold validCheckpointVals
        rw [List.filterMap_cons, if_neg hv]
      rw [lastCheckpointNumberAux]
      rw [if_neg hv]
      rw [hrest, hvals]

/-- C5: a `checkpoint-N` directory counts as a resume point only when both
`scheduler.pt` and `trainer_state.json` exist inside it; an entry that is
not a valid checkpoint (in particular, a matching directory missing either
companion file) leaves the scan unchanged; when every valid entry parses,
the computed `last_checkpoint_number` is the greatest parsed `N` over the
valid checkpoints (0 when there is none), and the driver passes
`resume_from_checkpoint = (last_checkpoint_number > 0)` to the trainer, so
with no valid checkpoint it starts from scratch. -/
theorem training_resume_greatest_valid_checkpoint (entries : List TrainDirEntry)
    (hparse : ∀ it ∈ entries, isValidTrainCheckpoint it = true →
        (parseDigits ((splitOnDash it.name).getLastD [])).isSome = true) :
    ∃ K, lastCheckpointNumber entries = some K ∧
      (∀ v ∈ validCheckpointVals entries, v ≤ K) ∧
      (K = 0 ∨ K ∈ validCheckpointVals entries) ∧
      (∀ e : TrainDirEntry, isValidTrainCheckpoint e = false →
          lastCheckpointNumber (e :: entries) = lastCheckpointNumber entries) ∧
      resumeFromCheckpoint entries = some (decide (0 < K)) := by
  refine ⟨scanOffsets (validCheckpointVals entries), ?_, ?_, ?_, ?_, ?_⟩
  · unfold lastCheckpointNumber
    rw [lastCheckpointNumberAux_eq entries hparse 0]
    congr 1
    omega
  · intro v hv
    exact le_scanOffsets_of_mem hv
  · exact scanOffsets_eq_zero_or_mem _
  · intro e he
    unfold lastCheckpointNumber
    rw [lastCheckpointNumberAux]
    simp [he]
  · unfold resumeFromCheckpoint lastCheckpointNumber
    rw [lastCheckpointNumberAux_eq entries hparse 0]
    simp

theorem training_resume_greatest_valid_checkpoint_witness :
    ∃ K, lastCheckpointNumber
        [⟨"checkpoint-500".toList, true, false, true⟩,
         ⟨"checkpoint-300".toList, true, true, true⟩,
         ⟨"logs".toList, true, true, true⟩] = some K ∧
      (∀ v ∈ validCheckpointVals
        [⟨"checkpoint-500".toList, true, false, true⟩,
         ⟨"checkpoint-300".toList, true, true, true⟩,
         ⟨"logs".toList, true, true, true⟩], v ≤ K) ∧
      (K = 0 ∨ K ∈ validCheckpointVals
        [⟨"checkpoint-500".toList, true, false, true⟩,
         ⟨"checkpoint-300".toList, true, true, true⟩,
         ⟨"logs".toList, true, true, true⟩]) ∧
      (∀ e : TrainDirEntry, isValidTrainCheckpoint e = false →
          lastCheckpointNumber (e ::
            [⟨"checkpoint-500".toList, true, false, true⟩,
             ⟨"checkpoint-300".toList, true, true, true⟩,
             ⟨"logs".toList, true, true, true⟩])
            = lastCheckpointNumber
            [⟨"checkpoint-500".toList, true, false, true⟩,
             ⟨"checkpoint-300".toList, true, true, true⟩,
             ⟨"logs".toList, true, true, true⟩]) ∧
      resumeFromCheckpoint
        [⟨"checkpoint-500".toList, true, false, true⟩,
         ⟨"checkpoint-300".toList, true, true, true⟩,
         ⟨"logs".toList, true, true, true⟩] = some (decide (0 < K)) :=
  training_resume_greatest_valid_checkpoint _ (by decide)

/-! ### Tokenizer validation: counterexample and characterization -/

theorem except_isOk_error {E A : Type} (e : E) :
    (Except.error e : Except E A).isOk = false := rfl

theorem except_isOk_ok {E A : Type} (a : A) :
    (Except.ok a : Except E A).isOk = true := rfl

/-- C7 counterexample: with a well-formed pad/eos pair, a chat template
name that is not a key of `CHAT_TEMPLATES`, and a model whose tokenizer
reloads successfully, `get_tokenizer` silently falls back to the model's
own chat template and returns successfully instead of failing fast. -/
theorem unknown_template_name_proceeds :
    ("zephyr_typo".toList ∈ chatTemplateNames) = False ∧
    (get_tokenizer ⟨some 0, some 1⟩ (.loaded (some "template".toList))
        ⟨some "zephyr_typo".toList, none, none⟩).isOk = true := by
  constructor
  · simp only [eq_iff_iff, iff_false]
    decide
  · decide

/-- C7 (amended): `get_tokenizer` fails fast exactly when the resolved pad
token is missing, the resolved pad equals the resolved eos token, or the
chat template name is not a built-in key and the model's tokenizer cannot
be reloaded; an unknown name with a loadable model tokenizer silently
falls back to the model's own template.  The training driver's checks fail
exactly when the pad token — after a missing pad token is repaired from
`config.tokenizer_args.pad_token_id` rather than rejected — equals the eos
token. -/
theorem tokenizer_validation_characterization :
    (∀ (tok : HFTokenizer) (load : PretrainedTemplateLoad) (tc : TokenizerConfig),
        (get_tokenizer tok load tc).isOk = false ↔
          (resolvedPad tok tc = none ∨
           resolvedPad tok tc = resolvedEos tok tc ∨
           ((∀ nm, tc.chat_template_name = some nm → nm ∉ chatTemplateNames) ∧
             load = .loadRaises))) ∧
    (∀ (tok : HFTokenizer) (configPadTokenId : Int),
        (trainTokenizerSetup tok configPadTokenId).isOk = false ↔
          (if tok.padTokenId = none then some configPadTokenId
           else tok.padTokenId) = tok.eosTokenId) := by
  constructor
  · intro tok load tc
    by_cases h1 : resolvedPad tok tc = none
    · simp [get_tokenizer, h1, except_isOk_error]
    · by_cases h2 : resolvedPad tok tc = resolvedEos tok tc
      · by_cases h4 : resolvedEos tok tc = none
        · simp [get_tokenizer, h1, h2, h4, except_isOk_error]
        · simp [get_tokenizer, h1, h2, h4, except_isOk_error]
      · rcases htc : tc.chat_template_name with _ | nm
        · cases load with
          | loadRaises => simp [get_tokenizer, h1, h2, htc, except_isOk_error]
          | loaded t => simp [get_tokenizer, h1, h2, htc, except_isOk_ok]
        · by_cases h3 : nm ∈ chatTemplateNames
          · simp [get_tokenizer, h1, h2, htc, h3, except_isOk_ok]
          · cases load with
            | loadRaises => simp [get_tokenizer, h1, h2, htc, h3, except_isOk_error]
            | loaded t => simp [get_tokenizer, h1, h2, htc, h3, except_isOk_ok]
  · intro tok configPadTokenId
    by_cases h : (if tok.padTokenId = none then some configPadTokenId
        else tok.padTokenId) = tok.eosTokenId
    · simp [trainTokenizerSetup, h, except_isOk_error]
    · simp [trainTokenizerSetup, h, except_isOk_ok]

/-- C9 counterexample: with partition bounds `start = 10 > 5 = end` and one
worker, the run does not fail: every worker's subpartition comes out empty
(`end_idx ≤ start_idx`), so the process logs and returns successfully with
zero work (`emptySubpartitionExit`), rather than raising a configuration
error. -/
theorem start_gt_end_is_not_config_error :
    mainRun 10 5 0 1 [] 8 = .emptySubpartitionExit ∧
    mainRun 10 5 0 1 [] 8 ≠ .zeroDivisionError := by
  constructor
  · decide
  · decide

/-- C9 (amended): a zero worker count makes the run fail fast before any
processing, with an uncaught `ZeroDivisionError` raised inside the
subpartition computation; but partition bounds with `start > end` do not
raise — for every worker the computed subpartition is empty and the
process exits successfully with zero work (no chunk loaded, no transform
invoked, no checkpoint written). -/
theorem invalid_config_characterization :
    (∀ (ps pe w : Int) (offs : List Nat) (c : Nat),
        mainRun ps pe w 0 offs c = .zeroDivisionError) ∧
    (∀ (ps pe w n : Int) (offs : List Nat) (c : Nat), 0 < n → pe < ps →
        mainRun ps pe w n offs c = .emptySubpartitionExit) := by
  constructor
  · intro ps pe w offs c
    simp [mainRun]
  · intro ps pe w n offs c hn hlt
    have hsize : ceilDiv (pe - ps) n ≤ 0 := by
      obtain ⟨hlb, hub⟩ := ceilDiv_bounds (pe - ps) n hn
      by_contra hpos
      push_neg at hpos
      have h1 : (1 : Int) ≤ ceilDiv (pe - ps) n := hpos
      have h2 : n * 1 ≤ n * ceilDiv (pe - ps) n :=
        mul_le_mul_of_nonneg_left h1 (le_of_lt hn)
      linarith
    have hexp : (w + 1) * ceilDiv (pe - ps) n
        = w * ceilDiv (pe - ps) n + ceilDiv (pe - ps) n := by ring
    have hempty : (compute_subpartition_start_end_indices ps pe w n).2
        ≤ (compute_subpartition_start_end_indices ps pe w n).1 := by
      show min (ps + (w + 1) * ceilDiv (pe - ps) n) pe
          ≤ ps + w * ceilDiv (pe - ps) n
      have hm := min_le_left (ps + (w + 1) * ceilDiv (pe - ps) n) pe
      linarith [hm, hexp]
    have hn0 : n ≠ 0 := by omega
    simp [mainRun, hn0, hempty]

theorem invalid_config_characterization_witness :
    mainRun 0 100 0 0 [] 8 = .zeroDivisionError ∧
    (0 : Int) < 2 ∧ (5 : Int) < 10 ∧
    mainRun 10 5 1 2 [] 8 = .emptySubpartitionExit :=
  ⟨invalid_config_characterization.1 0 100 0 [] 8, by decide, by decide,
   invalid_config_characterization.2 10 5 1 2 [] 8 (by decide) (by decide)⟩

theorem tokenizer_validation_characterization_witness :
    (get_tokenizer ⟨some 0, some 0⟩ (.loaded none) ⟨none, none, none⟩).isOk = false :=
  (tokenizer_validation_characterization.1 ⟨some 0, some 0⟩ (.loaded none)
    ⟨none, none, none⟩).mpr (Or.inr (Or.inl rfl))
